import Mathlib

/-!
Shallow embedding of the game-state core of the "Jogo da Forca" (hangman,
soccer theme) React Native app (`src/JogoDaForca/App.js`, and the identical
core in `src/unnamed/part_000`).

The component keeps four pieces of state: `word`, `guessedLetters`,
`attempts`, `gameStatus`.  A guess (`handleGuess`) mutates the first three;
a reactive effect (the "status check" `useEffect` over
`[guessedLetters, attempts, word, gameStatus]`) then recomputes the status.
React batches the two `set` calls of `handleGuess`, so the effect observes
the updated `guessedLetters` and `attempts` together; if `handleGuess`
returns without mutating, no re-render happens and the effect does not
re-run.  `submitGuess` below is therefore `handleGuess` followed by one run
of the status-check effect in the mutating case, and the identity otherwise.

JavaScript `array.includes(x)` / `word.includes(letter)` (single-character
needle) are list membership, embedded as decidable `∈`.
-/

namespace JogoDaForca

/-- The word list `WORDS` from `App.js` (lines 5–12), verbatim,
each word as its list of characters. -/
def WORDS : List (List Char) :=
  ["ZAGUEIRO".data, "GOLEIRO".data, "ATAQUE".data, "LATERAL".data, "CHUTEIRA".data,
   "TRAVE".data, "GOL".data, "PENALTI".data, "ESCANTEIO".data, "JUIZ".data,
   "CAMISA".data, "ARQUIBANCADA".data, "GRAMADO".data, "BANDERA".data, "FALTA".data,
   "ESCUDO".data, "CAPITAO".data, "CONVOCACAO".data, "COPINHA".data, "MARACANA".data,
   "HEXACAMPEAO".data, "TORCEDOR".data, "VITORIA".data, "EMPATE".data, "DERROTA".data,
   "CARRINHO".data, "PASSES".data, "TITE".data, "PELÉ".data, "NEYMAR".data]

/-- `MAX_ATTEMPTS` from `App.js` (line 15). -/
def MAX_ATTEMPTS : Nat := 6

/-- The `ALPHABET` offered by the on-screen `Keyboard` component
(`'ABCDEFGHIJKLMNOPQRSTUVWXYZ'.split('')`, `App.js` line 56). -/
def ALPHABET : List Char := "ABCDEFGHIJKLMNOPQRSTUVWXYZ".data

/-- The `gameStatus` values `'playing' | 'won' | 'lost'` (`App.js` line 90). -/
inductive GameStatus where
  | playing
  | won
  | lost
deriving DecidableEq, Repr

/-- The component-local state of `App`: `word`, `guessedLetters`,
`attempts`, `gameStatus` (`App.js` lines 87–90). -/
structure GameState where
  word : List Char
  guessedLetters : List Char
  attempts : Nat
  gameStatus : GameStatus
deriving DecidableEq, Repr

/-- The state produced by `startNewGame` once the random word `w` is fixed:
`setWord(w); setGuessedLetters([]); setAttempts(0); setGameStatus('playing')`
(`App.js` lines 95–103). -/
def initState (w : List Char) : GameState :=
  { word := w, guessedLetters := [], attempts := 0, gameStatus := GameStatus.playing }

/-- `startNewGame` (`App.js` lines 95–103): `Math.floor(Math.random() * WORDS.length)`
yields an index in `[0, WORDS.length)`; the random draw is modelled as that
index, received as an oracle argument. -/
def startNewGame (i : Fin WORDS.length) : GameState :=
  initState (WORDS.get i)

/-- The status-check `useEffect` (`App.js` lines 110–125): return early when
the word is empty (falsy) or the game is not `'playing'`; otherwise set
`'won'` when every unique letter of `word` was guessed, else set `'lost'`
when `attempts >= MAX_ATTEMPTS`.  `[...new Set(word.split(''))]` is embedded
as `List.dedup`; the effect only runs `.every` over it, so only its members
matter. -/
def checkStatus (s : GameState) : GameState :=
  if s.word = [] ∨ s.gameStatus ≠ GameStatus.playing then s
  else if ∀ c ∈ s.word.dedup, c ∈ s.guessedLetters then
    { s with gameStatus := GameStatus.won }
  else if MAX_ATTEMPTS ≤ s.attempts then
    { s with gameStatus := GameStatus.lost }
  else s

/-- `handleGuess` (`App.js` lines 130–141) followed by the status-check
effect: if the game is not `'playing'` or the letter was already guessed,
return with no state change (so the effect does not re-run); otherwise
append the letter to `guessedLetters`, increment `attempts` when the letter
is not in `word`, and run the status check on the batched result. -/
def submitGuess (s : GameState) (l : Char) : GameState :=
  if s.gameStatus ≠ GameStatus.playing ∨ l ∈ s.guessedLetters then s
  else
    checkStatus
      { s with
        guessedLetters := s.guessedLetters ++ [l]
        attempts := if l ∈ s.word then s.attempts else s.attempts + 1 }

/-- `displayWord` (`App.js` lines 146–151): each letter of `word` shown if
guessed, `'_'` otherwise, joined with `' '`. -/
def displayWord (s : GameState) : String :=
  String.mk (List.intersperse ' '
    (s.word.map (fun c => if c ∈ s.guessedLetters then c else '_')))

/-- `correctLetters` (`App.js` line 155): guessed letters present in `word`. -/
def correctLetters (s : GameState) : List Char :=
  s.guessedLetters.filter (fun c => decide (c ∈ s.word))

/-- `wrongLetters` (`App.js` line 156): guessed letters absent from `word`. -/
def wrongLetters (s : GameState) : List Char :=
  s.guessedLetters.filter (fun c => !(decide (c ∈ s.word)))

/-- States reachable from `s0` by `submitGuess` steps whose letters satisfy
`allowed` (e.g. letters offered by the on-screen keyboard). -/
inductive Reachable (allowed : Char → Prop) (s0 : GameState) : GameState → Prop where
  | refl : Reachable allowed s0 s0
  | step {t : GameState} (l : Char) :
      Reachable allowed s0 t → allowed l → Reachable allowed s0 (submitGuess t l)

/-- Round invariant, relative to the round's word `w`. -/
def WordInv (w : List Char) (s : GameState) : Prop :=
  s.word = w ∧
  s.guessedLetters.Nodup ∧
  s.attempts = (wrongLetters s).length ∧
  s.attempts ≤ MAX_ATTEMPTS ∧
  (s.gameStatus = GameStatus.playing →
    s.attempts < MAX_ATTEMPTS ∧ ¬(∀ c ∈ s.word, c ∈ s.guessedLetters)) ∧
  (s.gameStatus = GameStatus.won → ∀ c ∈ s.word, c ∈ s.guessedLetters)

/-! ## Helper lemmas -/

theorem checkStatus_word (s : GameState) : (checkStatus s).word = s.word := by
  unfold checkStatus
  split
  · rfl
  · split
    · rfl
    · split <;> rfl

theorem checkStatus_guessedLetters (s : GameState) :
    (checkStatus s).guessedLetters = s.guessedLetters := by
  unfold checkStatus
  split
  · rfl
  · split
    · rfl
    · split <;> rfl

theorem checkStatus_attempts (s : GameState) : (checkStatus s).attempts = s.attempts := by
  unfold checkStatus
  split
  · rfl
  · split
    · rfl
    · split <;> rfl

theorem submitGuess_noop (s : GameState) (l : Char)
    (h : s.gameStatus ≠ GameStatus.playing ∨ l ∈ s.guessedLetters) :
    submitGuess s l = s := by
  unfold submitGuess
  exact if_pos h

theorem submitGuess_not_playing (s : GameState) (l : Char)
    (h : s.gameStatus ≠ GameStatus.playing) : submitGuess s l = s :=
  submitGuess_noop s l (Or.inl h)

theorem reachable_inv {allowed : Char → Prop} {w : List Char} {s : GameState}
    (hw : w ≠ []) (h : Reachable allowed (initState w) s) : WordInv w s := by
  induction h with
  | refl =>
      refine ⟨rfl, List.nodup_nil, rfl, by simp [MAX_ATTEMPTS, initState], ?_, by simp [initState]⟩
      intro _
      refine ⟨by simp [MAX_ATTEMPTS, initState], ?_⟩
      intro hall
      rcases List.exists_mem_of_ne_nil w hw with ⟨c, hc⟩
      exact absurd (hall c hc) (by simp [initState])
  | step l hr hal ih =>
      rename_i t
      obtain ⟨hword, hnd, hcnt, hle, hplay, hwon⟩ := ih
      by_cases hc : t.gameStatus ≠ GameStatus.playing ∨ l ∈ t.guessedLetters
      · rw [submitGuess_noop t l hc]
        exact ⟨hword, hnd, hcnt, hle, hplay, hwon⟩
      · push_neg at hc
        obtain ⟨hpl, hnew⟩ := hc
        obtain ⟨hlt, hnall⟩ := hplay hpl
        -- the batched state after handleGuess's two set calls
        set t2 : GameState :=
          { t with
            guessedLetters := t.guessedLetters ++ [l]
            attempts := if l ∈ t.word then t.attempts else t.attempts + 1 } with ht2
        have hsub : submitGuess t l = checkStatus t2 := by
          unfold submitGuess
          rw [if_neg]
          push_neg
          exact ⟨hpl, hnew⟩
        have hword2 : t2.word = w := hword
        have hnd2 : t2.guessedLetters.Nodup := by
          simp only [ht2]
          simp [List.nodup_append, hnd, hnew]
        have hcnt2 : t2.attempts = (wrongLetters t2).length := by
          simp only [ht2, wrongLetters]
          by_cases hin : l ∈ t.word
          · simp [hin, hcnt, wrongLetters]
          · simp [hin, hcnt, wrongLetters]
        have hle2 : t2.attempts ≤ MAX_ATTEMPTS := by
          simp only [ht2]
          by_cases hin : l ∈ t.word
          · simp only [if_pos hin]
            exact hle
          · simp only [if_neg hin]
            omega
        have hw2 : t2.word ≠ [] := by
          rw [hword2]
          exact hw
        have hpl2 : t2.gameStatus = GameStatus.playing := hpl
        rw [hsub]
        unfold checkStatus
        rw [if_neg (not_or.mpr ⟨hw2, not_not_intro hpl2⟩)]
        by_cases hall : ∀ c ∈ t2.word.dedup, c ∈ t2.guessedLetters
        · rw [if_pos hall]
          refine ⟨hword2, hnd2, hcnt2, hle2, by simp, ?_⟩
          intro _ c hcmem
          exact hall c (List.mem_dedup.mpr hcmem)
        · rw [if_neg hall]
          by_cases hmax : MAX_ATTEMPTS ≤ t2.attempts
          · rw [if_pos hmax]
            exact ⟨hword2, hnd2, hcnt2, hle2, by simp, by simp⟩
          · rw [if_neg hmax]
            refine ⟨hword2, hnd2, hcnt2, hle2, ?_, ?_⟩
            · intro _
              refine ⟨by omega, ?_⟩
              intro hall2
              exact hall fun c hcd => hall2 c (List.mem_dedup.mp hcd)
            · intro hcontra
              rw [hpl2] at hcontra
              exact absurd hcontra (by simp)


theorem WORDS_ne_nil : ∀ w ∈ WORDS, w ≠ [] := by decide

theorem reachable_guessed_allowed {allowed : Char → Prop} {s0 s : GameState}
    (h : Reachable allowed s0 s) :
    ∀ c ∈ s.guessedLetters, c ∈ s0.guessedLetters ∨ allowed c := by
  induction h with
  | refl => exact fun c hc => Or.inl hc
  | step l hr hal ih =>
      rename_i t
      intro c hc
      by_cases hcond : t.gameStatus ≠ GameStatus.playing ∨ l ∈ t.guessedLetters
      · rw [submitGuess_noop t l hcond] at hc
        exact ih c hc
      · have hg : (submitGuess t l).guessedLetters = t.guessedLetters ++ [l] := by
          unfold submitGuess
          rw [if_neg hcond, checkStatus_guessedLetters]
        rw [hg] at hc
        rcases List.mem_append.mp hc with h1 | h1
        · exact ih c h1
        · rw [List.mem_singleton] at h1
          subst h1
          exact Or.inr hal

theorem foldl_submitGuess_not_playing (ls : List Char) (s : GameState)
    (h : s.gameStatus ≠ GameStatus.playing) : List.foldl submitGuess s ls = s := by
  induction ls with
  | nil => rfl
  | cons l ls ih =>
      rw [List.foldl_cons, submitGuess_not_playing s l h]
      exact ih

theorem foldl_submitGuess_wins (ls : List Char) (s : GameState)
    (hw : s.word ≠ [])
    (ha : s.attempts < MAX_ATTEMPTS)
    (hsub : ∀ c ∈ ls, c ∈ s.word)
    (hcov : ∀ c ∈ s.word, c ∈ ls ∨ c ∈ s.guessedLetters)
    (hst : (s.gameStatus = GameStatus.playing ∧ ¬(∀ c ∈ s.word, c ∈ s.guessedLetters))
           ∨ s.gameStatus = GameStatus.won) :
    (List.foldl submitGuess s ls).gameStatus = GameStatus.won := by
  induction ls generalizing s with
  | nil =>
      rcases hst with ⟨hpl, hnall⟩ | hwon
      · exact absurd (fun c hc => (hcov c hc).resolve_left (List.not_mem_nil c)) hnall
      · exact hwon
  | cons l ls ih =>
      rcases hst with ⟨hpl, hnall⟩ | hwon
      swap
      · rw [foldl_submitGuess_not_playing (l :: ls) s (by rw [hwon]; exact fun hx => by cases hx)]
        exact hwon
      · have hlw : l ∈ s.word := hsub l (List.mem_cons_self l ls)
        by_cases hlg : l ∈ s.guessedLetters
        · rw [List.foldl_cons, submitGuess_noop s l (Or.inr hlg)]
          refine ih s hw ha (fun c hc => hsub c (List.mem_cons_of_mem l hc)) ?_
            (Or.inl ⟨hpl, hnall⟩)
          intro c hc
          rcases hcov c hc with h1 | h1
          · rcases List.mem_cons.mp h1 with h2 | h2
            · subst h2
              exact Or.inr hlg
            · exact Or.inl h2
          · exact Or.inr h1
        · rw [List.foldl_cons]
          have hcond : ¬(s.gameStatus ≠ GameStatus.playing ∨ l ∈ s.guessedLetters) :=
            not_or.mpr ⟨not_not_intro hpl, hlg⟩
          have hsubg : submitGuess s l =
              checkStatus
                { s with
                  guessedLetters := s.guessedLetters ++ [l]
                  attempts := if l ∈ s.word then s.attempts else s.attempts + 1 } := by
            unfold submitGuess
            rw [if_neg hcond]
          rw [hsubg]
          unfold checkStatus
          dsimp only
          rw [if_neg (not_or.mpr ⟨hw, not_not_intro hpl⟩)]
          by_cases hall : ∀ c ∈ s.word.dedup, c ∈ s.guessedLetters ++ [l]
          · rw [if_pos hall]
            rw [foldl_submitGuess_not_playing ls _ (by exact fun hx => by cases hx)]
          · rw [if_neg hall, if_pos hlw, if_neg (by omega : ¬ MAX_ATTEMPTS ≤ s.attempts)]
            refine ih _ hw ha (fun c hc => hsub c (List.mem_cons_of_mem l hc)) ?_ ?_
            · intro c hc
              rcases hcov c hc with h1 | h1
              · rcases List.mem_cons.mp h1 with h2 | h2
                · subst h2
                  exact Or.inr (List.mem_append_right _ (List.mem_singleton_self c))
                · exact Or.inl h2
              · exact Or.inr (List.mem_append_left _ h1)
            · refine Or.inl ⟨hpl, ?_⟩
              intro hcon
              exact hall fun c hc => hcon c (List.mem_dedup.mp hc)


/-! ## Claim theorems -/

/-- C1: in a state with `gameStatus = playing` whose word comes from the
vocabulary, a guess of a letter not already guessed appends the letter to
`guessedLetters`, increments `attempts` exactly when the letter does not
occur in `word`, and derives the new status as: `won` when every distinct
letter of `word` is guessed (checked first), else `lost` when
`attempts ≥ MAX_ATTEMPTS`, else `playing`. -/
theorem submitGuess_progress_spec (s : GameState) (l : Char)
    (hw : s.word ∈ WORDS) (hp : s.gameStatus = GameStatus.playing)
    (hl : l ∉ s.guessedLetters) :
    (submitGuess s l).word = s.word ∧
    (submitGuess s l).guessedLetters = s.guessedLetters ++ [l] ∧
    (submitGuess s l).attempts = (if l ∈ s.word then s.attempts else s.attempts + 1) ∧
    (submitGuess s l).gameStatus =
      (if ∀ c ∈ s.word, c ∈ s.guessedLetters ++ [l] then GameStatus.won
       else if MAX_ATTEMPTS ≤ (if l ∈ s.word then s.attempts else s.attempts + 1) then
         GameStatus.lost
       else GameStatus.playing) := by
  have hne : s.word ≠ [] := WORDS_ne_nil s.word hw
  have hcond : ¬(s.gameStatus ≠ GameStatus.playing ∨ l ∈ s.guessedLetters) :=
    not_or.mpr ⟨not_not_intro hp, hl⟩
  have hsubg : submitGuess s l =
      checkStatus
        { s with
          guessedLetters := s.guessedLetters ++ [l]
          attempts := if l ∈ s.word then s.attempts else s.attempts + 1 } := by
    unfold submitGuess
    rw [if_neg hcond]
  refine ⟨by rw [hsubg, checkStatus_word], by rw [hsubg, checkStatus_guessedLetters],
    by rw [hsubg, checkStatus_attempts], ?_⟩
  rw [hsubg]
  unfold checkStatus
  dsimp only
  rw [if_neg (not_or.mpr ⟨hne, not_not_intro hp⟩)]
  by_cases hall : ∀ c ∈ s.word, c ∈ s.guessedLetters ++ [l]
  · have h2 : ∀ c ∈ s.word.dedup, c ∈ s.guessedLetters ++ [l] :=
      fun c hc => hall c (List.mem_dedup.mp hc)
    rw [if_pos hall, if_pos h2]
  · have h2 : ¬∀ c ∈ s.word.dedup, c ∈ s.guessedLetters ++ [l] :=
      fun hcon => hall fun c hc => hcon c (List.mem_dedup.mpr hc)
    rw [if_neg hall, if_neg h2]
    by_cases hmax : MAX_ATTEMPTS ≤ (if l ∈ s.word then s.attempts else s.attempts + 1)
    · rw [if_pos hmax, if_pos hmax]
    · rw [if_neg hmax, if_neg hmax]
      exact hp

/-- Witness for C1: guessing the wrong letter `'Z'` on a fresh round with
word `"GOL"`. -/
theorem submitGuess_progress_spec_witness :
    (initState "GOL".data).word ∈ WORDS ∧
    (initState "GOL".data).gameStatus = GameStatus.playing ∧
    'Z' ∉ (initState "GOL".data).guessedLetters ∧
    (submitGuess (initState "GOL".data) 'Z').guessedLetters =
      (initState "GOL".data).guessedLetters ++ ['Z'] ∧
    (submitGuess (initState "GOL".data) 'Z').attempts =
      (if 'Z' ∈ (initState "GOL".data).word then (initState "GOL".data).attempts
       else (initState "GOL".data).attempts + 1) :=
  ⟨by decide, rfl, by decide,
    (submitGuess_progress_spec (initState "GOL".data) 'Z' (by decide) rfl (by decide)).2.1,
    (submitGuess_progress_spec (initState "GOL".data) 'Z' (by decide) rfl (by decide)).2.2.1⟩

/-- C2: in every state reachable within a round, `attempts` never exceeds
`MAX_ATTEMPTS`; when it equals `MAX_ATTEMPTS` and the word is not fully
guessed the status is `lost`; a `lost` state absorbs every further guess;
and only `startNewGame` yields a `playing` status again. -/
theorem attempts_bounded_lost_terminal (w : List Char) (s : GameState)
    (hw : w ∈ WORDS) (hr : Reachable (fun _ => True) (initState w) s) :
    s.attempts ≤ MAX_ATTEMPTS ∧
    (s.attempts = MAX_ATTEMPTS ∧ ¬(∀ c ∈ s.word, c ∈ s.guessedLetters) →
      s.gameStatus = GameStatus.lost) ∧
    (s.gameStatus = GameStatus.lost → ∀ l : Char, submitGuess s l = s) ∧
    (∀ i : Fin WORDS.length, (startNewGame i).gameStatus = GameStatus.playing) := by
  have hne : w ≠ [] := WORDS_ne_nil w hw
  have hinv := reachable_inv hne hr
  refine ⟨hinv.2.2.2.1, ?_, ?_, fun i => rfl⟩
  · rintro ⟨hmax, hnall⟩
    cases hst : s.gameStatus with
    | playing =>
        have hlt := (hinv.2.2.2.2.1 hst).1
        exact absurd hmax (by omega)
    | won => exact absurd (hinv.2.2.2.2.2 hst) hnall
    | lost => rfl
  · intro hlost l
    refine submitGuess_not_playing s l ?_
    rw [hlost]
    exact fun hx => by cases hx

/-- Witness for C2: the fresh round with word `"GOL"`. -/
theorem attempts_bounded_lost_terminal_witness :
    "GOL".data ∈ WORDS ∧ (initState "GOL".data).attempts ≤ MAX_ATTEMPTS :=
  ⟨by decide,
    (attempts_bounded_lost_terminal "GOL".data (initState "GOL".data)
      (by decide) Reachable.refl).1⟩

/-- C3: when the game is not `playing` or the letter was already guessed,
`submitGuess` leaves `word`, `guessedLetters`, `attempts` and `gameStatus`
unchanged (a total no-op; the function signals no error). -/
theorem submitGuess_noop_spec (s : GameState) (l : Char)
    (h : s.gameStatus ≠ GameStatus.playing ∨ l ∈ s.guessedLetters) :
    (submitGuess s l).word = s.word ∧
    (submitGuess s l).guessedLetters = s.guessedLetters ∧
    (submitGuess s l).attempts = s.attempts ∧
    (submitGuess s l).gameStatus = s.gameStatus := by
  rw [submitGuess_noop s l h]
  exact ⟨rfl, rfl, rfl, rfl⟩

/-- Witness for C3: repeating the guess `'G'` in a state where it was
already guessed. -/
theorem submitGuess_noop_spec_witness :
    (submitGuess ⟨"GOL".data, ['G'], 0, GameStatus.playing⟩ 'G').guessedLetters = ['G'] ∧
    (submitGuess ⟨"GOL".data, ['G'], 0, GameStatus.playing⟩ 'G').attempts = 0 :=
  ⟨(submitGuess_noop_spec ⟨"GOL".data, ['G'], 0, GameStatus.playing⟩ 'G'
      (Or.inr (by decide))).2.1,
    (submitGuess_noop_spec ⟨"GOL".data, ['G'], 0, GameStatus.playing⟩ 'G'
      (Or.inr (by decide))).2.2.1⟩

/-- C4: `startNewGame` (for any value of the random index) always yields a
state whose word is a member of the vocabulary — the draw is the uniformly
random index, and `WORDS` is duplicate-free, so every word is equally
likely — with no guessed letters, zero attempts, and status `playing`. -/
theorem startNewGame_spec (i : Fin WORDS.length) :
    (startNewGame i).word ∈ WORDS ∧
    (startNewGame i).guessedLetters = [] ∧
    (startNewGame i).attempts = 0 ∧
    (startNewGame i).gameStatus = GameStatus.playing ∧
    (startNewGame i).word = WORDS.get i ∧
    WORDS.Nodup :=
  ⟨WORDS.get_mem i.1 i.2, rfl, rfl, rfl, rfl, by decide⟩

/-- C5: submitting the same letter twice in immediate succession yields
exactly the state of submitting it once. -/
theorem submitGuess_idempotent (s : GameState) (l : Char) :
    submitGuess (submitGuess s l) l = submitGuess s l := by
  by_cases hc : s.gameStatus ≠ GameStatus.playing ∨ l ∈ s.guessedLetters
  · rw [submitGuess_noop s l hc, submitGuess_noop s l hc]
  · have h2 : (submitGuess s l).guessedLetters = s.guessedLetters ++ [l] := by
      unfold submitGuess
      rw [if_neg hc, checkStatus_guessedLetters]
    refine submitGuess_noop _ _ (Or.inr ?_)
    rw [h2]
    exact List.mem_append_right _ (List.mem_singleton_self l)

/-- C6: the derived view is a pure function of the state: `displayWord`
masks exactly the unguessed positions of `word` (placeholder `'_'`, joined
by `' '`), and `correctLetters`/`wrongLetters` partition `guessedLetters`
by presence in `word`; on word `"GOL"` the guess sequence G, O, X, L gives
displays `"G _ _"`, `"G O _"`, then one wrong attempt, and finally status
`won` with display `"G O L"` and one wrong attempt. -/
theorem renderDisplay_spec :
    (∀ s : GameState, (displayWord s).data =
      List.intersperse ' ' (s.word.map (fun c => if c ∈ s.guessedLetters then c else '_'))) ∧
    (∀ s : GameState, ∀ c : Char,
      (c ∈ correctLetters s ↔ c ∈ s.guessedLetters ∧ c ∈ s.word) ∧
      (c ∈ wrongLetters s ↔ c ∈ s.guessedLetters ∧ c ∉ s.word)) ∧
    (∀ s : GameState, List.Perm (correctLetters s ++ wrongLetters s) s.guessedLetters) ∧
    displayWord (submitGuess (initState "GOL".data) 'G') = "G _ _" ∧
    (submitGuess (initState "GOL".data) 'G').attempts = 0 ∧
    (submitGuess (initState "GOL".data) 'G').gameStatus = GameStatus.playing ∧
    displayWord (submitGuess (submitGuess (initState "GOL".data) 'G') 'O') = "G O _" ∧
    (submitGuess (submitGuess (submitGuess (initState "GOL".data) 'G') 'O') 'X').attempts
      = 1 ∧
    (submitGuess (submitGuess (submitGuess (submitGuess (initState "GOL".data) 'G') 'O')
        'X') 'L').gameStatus = GameStatus.won ∧
    displayWord (submitGuess (submitGuess (submitGuess (submitGuess
        (initState "GOL".data) 'G') 'O') 'X') 'L') = "G O L" ∧
    (submitGuess (submitGuess (submitGuess (submitGuess (initState "GOL".data) 'G') 'O')
        'X') 'L').attempts = 1 := by
  refine ⟨fun s => rfl, fun s c => ?_, fun s => List.filter_append_perm _ _,
    by decide, by decide, by decide, by decide, by decide, by decide, by decide, by decide⟩
  constructor
  · simp [correctLetters, List.mem_filter]
  · simp [wrongLetters, List.mem_filter]


/-- C7 counterexample: the code performs no case normalization, so
submitting the lowercase (case-normalized) forms `g, o, l` of the distinct
letters of the vocabulary word `"GOL"`, from a fresh round, does not drive
the status to `won`: all three count as wrong guesses. -/
theorem lowercase_guesses_do_not_win :
    "GOL".data ∈ WORDS ∧
    (List.foldl submitGuess (initState "GOL".data) ['g', 'o', 'l']).gameStatus
      ≠ GameStatus.won ∧
    (List.foldl submitGuess (initState "GOL".data) ['g', 'o', 'l']).gameStatus
      = GameStatus.playing ∧
    (List.foldl submitGuess (initState "GOL".data) ['g', 'o', 'l']).attempts = 3 := by
  decide

/-- C7 (amended): from any reachable `playing` state of a round whose word
is in the vocabulary, with fewer than `MAX_ATTEMPTS` wrong attempts,
submitting a sequence consisting of exactly the letters of the word (each
letter of the word occurs, in any order, exactly as it appears in the word)
drives the status to `won`. -/
theorem all_letters_guessed_wins (w : List Char) (s : GameState) (ls : List Char)
    (hw : w ∈ WORDS)
    (hr : Reachable (fun _ => True) (initState w) s)
    (hp : s.gameStatus = GameStatus.playing)
    (ha : s.attempts < MAX_ATTEMPTS)
    (hsub : ∀ c ∈ ls, c ∈ s.word)
    (hcov : ∀ c ∈ s.word, c ∈ ls) :
    (List.foldl submitGuess s ls).gameStatus = GameStatus.won := by
  have hne : w ≠ [] := WORDS_ne_nil w hw
  have hinv := reachable_inv hne hr
  have hnall := (hinv.2.2.2.2.1 hp).2
  refine foldl_submitGuess_wins ls s ?_ ha hsub (fun c hc => Or.inl (hcov c hc))
    (Or.inl ⟨hp, hnall⟩)
  rw [hinv.1]
  exact hne

/-- Witness for C7 (amended): guessing G, O, L on a fresh `"GOL"` round. -/
theorem all_letters_guessed_wins_witness :
    (List.foldl submitGuess (initState "GOL".data) ['G', 'O', 'L']).gameStatus
      = GameStatus.won :=
  all_letters_guessed_wins "GOL".data (initState "GOL".data) ['G', 'O', 'L']
    (by decide) Reachable.refl rfl (by decide) (by decide) (by decide)

/-- C8 counterexample: the compiled-in vocabulary does not have 29 words. -/
theorem vocabulary_size_not_29 : ¬(WORDS.length = 29 ∧ MAX_ATTEMPTS = 6) := by
  decide

/-- C8 (amended): the compiled-in vocabulary contains exactly 30 words, and
the maximum wrong-attempt constant equals 6. -/
theorem vocabulary_size_and_max_attempts : WORDS.length = 30 ∧ MAX_ATTEMPTS = 6 := by
  decide

/-- C9: in every state reachable from a fresh round, `guessedLetters` has
no duplicates and `attempts` equals the number of guessed letters absent
from `word` (the length of `wrongLetters`). -/
theorem guessed_nodup_attempts_count (w : List Char) (s : GameState)
    (hw : w ∈ WORDS) (hr : Reachable (fun _ => True) (initState w) s) :
    s.guessedLetters.Nodup ∧ s.attempts = (wrongLetters s).length := by
  have hne : w ≠ [] := WORDS_ne_nil w hw
  have hinv := reachable_inv hne hr
  exact ⟨hinv.2.1, hinv.2.2.1⟩

/-- Witness for C9: the fresh round with word `"GOL"`. -/
theorem guessed_nodup_attempts_count_witness :
    (initState "GOL".data).guessedLetters.Nodup ∧
    (initState "GOL".data).attempts = (wrongLetters (initState "GOL".data)).length :=
  guessed_nodup_attempts_count "GOL".data (initState "GOL".data) (by decide) Reachable.refl

/-- C10: the vocabulary word `"PELÉ"` contains the letter `'É'`, which the
on-screen keyboard does not offer; in a round with that word, no sequence
of guesses drawn from the keyboard's A–Z alphabet ever reaches status
`won`, while losing through the keyboard is possible (six wrong guesses
reach `lost`). -/
theorem pele_round_unwinnable (s : GameState)
    (hr : Reachable (fun c => c ∈ ALPHABET) (initState "PELÉ".data) s) :
    "PELÉ".data ∈ WORDS ∧ 'É' ∈ "PELÉ".data ∧ 'É' ∉ ALPHABET ∧
    s.gameStatus ≠ GameStatus.won ∧
    (List.foldl submitGuess (initState "PELÉ".data)
      ['A', 'B', 'C', 'D', 'F', 'G']).gameStatus = GameStatus.lost := by
  refine ⟨by decide, by decide, by decide, ?_, by decide⟩
  intro hwon
  have hinv := reachable_inv (by decide) hr
  have hEg : 'É' ∈ s.guessedLetters := by
    refine hinv.2.2.2.2.2 hwon 'É' ?_
    rw [hinv.1]
    decide
  rcases reachable_guessed_allowed hr 'É' hEg with h1 | h1
  · exact absurd h1 (by simp [initState])
  · exact absurd h1 (by decide)

/-- Witness for C10: the fresh `"PELÉ"` round itself. -/
theorem pele_round_unwinnable_witness :
    (initState "PELÉ".data).gameStatus ≠ GameStatus.won :=
  (pele_round_unwinnable (initState "PELÉ".data) Reachable.refl).2.2.2.1

end JogoDaForca
